import Mathlib

/-
  Verification of the word-addition decision engine of the lingualeo_bot
  repository (src/lingualeo/client.py), as a shallow embedding in Lean 4.

  Conventions of the embedding:
  * Python dict values read with `.get` are modelled as `Option (Option _)`
    where the outer layer is key presence and the inner layer is a present
    `None`, whenever the code's `or`-chains or dict truthiness make the
    distinction observable (candidate dicts).  Where the distinction is
    not observable by the modelled code paths a single `Option` is used.
  * Python strings are Lean `String`; `str.lower` is modelled for the
    ASCII and Cyrillic alphabets that this program manipulates, and
    `str.strip` for the ASCII whitespace characters.
  * The float similarity score of difflib.SequenceMatcher.ratio is an
    abstract parameter `sim : String → String → ℚ`; the only property the
    code relies on (and the spec states) is that scores are nonnegative
    (difflib ratios lie in [0,1]).
  * `hash` (Python's seeded string hash) is an abstract parameter
    `pyHash : String → Int`, fixed for the lifetime of a process.
  * Remote calls are modelled by an environment record giving each call's
    outcome; the sequencing of calls is recorded in an event trace.
-/

namespace Lingualeo

/-- Python str.lower for one character, covering the ASCII and Cyrillic
alphabets that this program manipulates (other characters unchanged). -/
def pyCharLower (c : Char) : Char :=
  if 'A' ≤ c ∧ c ≤ 'Z' then Char.ofNat (c.toNat + 32)
  else if 0x410 ≤ c.toNat ∧ c.toNat ≤ 0x42F then Char.ofNat (c.toNat + 0x20)
  else if c.toNat = 0x401 then Char.ofNat 0x451
  else c

/-- Python str.lower on a string (character-wise). -/
def pyLower (s : String) : String :=
  ⟨s.data.map pyCharLower⟩

/-- The whitespace characters stripped by Python str.strip (ASCII part). -/
def pyIsSpace (c : Char) : Bool :=
  c = ' ' || c = '\t' || c = '\n' || c = '\r' || c.toNat = 0xB || c.toNat = 0xC

/-- Python str.strip: drop leading and trailing whitespace. -/
def pyStrip (s : String) : String :=
  ⟨((s.data.dropWhile pyIsSpace).reverse.dropWhile pyIsSpace).reverse⟩

/-- Python `a or b` on two optional strings (None and the empty string are
falsy). -/
def strOr (a b : Option String) : Option String :=
  match a with
  | some s => if s = "" then b else some s
  | none => b

/-- Python `str.split(sep)` on a list of characters, single-character
separator (structural recursion so that the kernel can evaluate it). -/
def pySplitChar (sep : Char) : List Char → List String
  | [] => [""]
  | c :: rest =>
    let r := pySplitChar sep rest
    if c = sep then "" :: r
    else
      match r with
      | [] => [⟨[c]⟩]
      | s :: tail => ⟨c :: s.data⟩ :: tail

/-- Python `str.split(sep)` for a single-character separator. -/
def pySplit (sep : Char) (s : String) : List String :=
  pySplitChar sep s.data

/-- Python `str.split(sep, 1)`: split at the first occurrence of the
separator, `none` when the separator does not occur (`sep not in s`). -/
def pySplitOnce (sep : Char) : List Char → Option (List Char × List Char)
  | [] => none
  | c :: rest =>
    if c = sep then some ([], rest)
    else (pySplitOnce sep rest).map (fun p => (c :: p.1, p.2))

/-- A translation-candidate dict as produced by the remote API and consumed
by client.py.  Fields are the keys the code reads; the outer `Option` is
key presence, the inner one a JSON null.  `hasOtherKeys` records whether
the dict holds further keys (it decides Python dict truthiness). -/
structure Candidate where
  id : Option (Option Int)
  value : Option (Option String)
  tr : Option (Option String)
  main : Option (Option Int)
  selected : Option (Option Int)
  hasOtherKeys : Bool
deriving DecidableEq

/-- Python truthiness of a candidate dict: a dict is truthy iff non-empty. -/
def Candidate.isTruthy (c : Candidate) : Bool :=
  c.id.isSome || c.value.isSome || c.tr.isSome || c.main.isSome ||
    c.selected.isSome || c.hasOtherKeys

/-- The empty dict `\x7b\x7d`. -/
def emptyDict : Candidate :=
  ⟨none, none, none, none, none, false⟩

/-- The display text of a candidate:
`str(candidate.get("value") or candidate.get("tr") or "")`. -/
def candText (c : Candidate) : String :=
  (strOr c.value.join c.tr.join).getD ""

/-- A word record as returned by the GetWords search (the keys read by
client.py; string-valued keys are modelled as present-string or absent). -/
structure WordData where
  combinedTranslation : Option (Option String)
  translations : Option (Option (List Candidate))
  wordValue : Option String
  wordLemmaValue : Option String
deriving DecidableEq

/-- `word_data.get("combinedTranslation", "")`. -/
def combinedField (wd : WordData) : Option String :=
  match wd.combinedTranslation with
  | some v => v
  | none => some ""

/-- The raw translation list gathered by extract_existing_translations
before deduplication: trimmed non-empty entries of the semicolon-separated
combined field, then trimmed non-empty texts of the structured list. -/
def rawTranslations (wd : WordData) : List String :=
  let fromCombined :=
    match combinedField wd with
    | some s =>
      if s = "" then []
      else ((pySplit ';' s).map pyStrip).filter (fun t => t ≠ "")
    | none => []
  let entries := wd.translations.join.getD []
  let fromList :=
    (entries.map candText).filterMap
      (fun text => if text ≠ "" ∧ pyStrip text ≠ "" then some (pyStrip text) else none)
  fromCombined ++ fromList

/-- Remove duplicates while preserving order, comparing lowercased strings;
`seen` is the set (as a list) of lowercased keys already emitted. -/
def dedupCI (seen : List String) : List String → List String
  | [] => []
  | t :: rest =>
    if pyLower t ∈ seen then dedupCI seen rest
    else t :: dedupCI (pyLower t :: seen) rest

/-- extract_existing_translations from client.py: combined field entries,
then structured entries, deduplicated case-insensitively keeping the
first-seen casing and order. -/
def extract_existing_translations (wd : WordData) : List String :=
  dedupCI [] (rawTranslations wd)

/-- translation_exists from client.py: case-insensitive whitespace-trimmed
membership of the hint among the existing translations. -/
def translation_exists (existing : List String) (hint : String) : Bool :=
  let hl := pyStrip (pyLower hint)
  existing.any (fun t => pyStrip (pyLower t) == hl)

/-- _should_reauth from client.py: `status_code in \x7b400, 401, 403\x7d`. -/
def _should_reauth (status : Option Nat) : Bool :=
  status == some 400 || status == some 401 || status == some 403

/-- Python-dict update of a single key (replace in place, else append). -/
def dictUpd (d : List (String × String)) (k v : String) : List (String × String) :=
  if d.any (fun p => p.1 = k) then
    d.map (fun p => if p.1 = k then (p.1, v) else p)
  else d ++ [(k, v)]

/-- Python `d.update(e)`: insert the entries of `e` into `d` in order. -/
def dictUpdate (d e : List (String × String)) : List (String × String) :=
  e.foldl (fun acc p => dictUpd acc p.1 p.2) d

/-- Lookup in a modelled Python dict. -/
def dictGet (d : List (String × String)) (k : String) : Option String :=
  (d.find? (fun p => p.1 = k)).map Prod.snd

/-- parse_cookie_string from client.py: split on semicolons, skip empty
parts and parts without an equals sign, split each remaining part at the
first equals sign and strip both halves. -/
def parse_cookie_string (raw : String) : List (String × String) :=
  (pySplit ';' raw).foldl
    (fun cookies part0 =>
      let part := pyStrip part0
      if part = "" then cookies
      else
        match pySplitOnce '=' part.data with
        | none => cookies
        | some (name0, value0) =>
          dictUpd cookies (pyStrip ⟨name0⟩) (pyStrip ⟨value0⟩))
    []

/-- The cookie initialisation of LinguaLeoClient.__init__ : start from the
empty dict, update with the parsed cookie string when one is given and
truthy, then update with the contents of the cookie file. -/
def initCookies (cookie_string : Option String)
    (fileCookies : List (String × String)) : List (String × String) :=
  let c1 :=
    match cookie_string with
    | some s => if s = "" then [] else dictUpdate [] (parse_cookie_string s)
    | none => []
  dictUpdate c1 fileCookies

/-- The default similarity threshold 0.8 of select_best_translation,
written as a kernel-evaluable rational (see defaultThreshold_eq). -/
def defaultThreshold : ℚ :=
  ⟨4, 5, by norm_num, by norm_num⟩

theorem defaultThreshold_eq : defaultThreshold = 4 / 5 := by
  apply Rat.ext <;> norm_num [defaultThreshold]

/-- The loop state of select_best_translation: current best candidate and
its score (initially `None` and `-1.0`). -/
structure SelState where
  best : Option Candidate
  bestScore : ℚ
deriving DecidableEq

/-- One iteration of the select_best_translation loop: skip a candidate
with empty lowered display text, otherwise keep it when its score strictly
beats the best so far. -/
def selStep (sim : String → String → ℚ) (dl : String)
    (st : SelState) (c : Candidate) : SelState :=
  if pyLower (candText c) = "" then st
  else if sim dl (pyLower (candText c)) > st.bestScore then
    ⟨some c, sim dl (pyLower (candText c))⟩
  else st

/-- select_best_translation from client.py.  `sim` abstracts
difflib.SequenceMatcher(a, b).ratio(); both arguments are lowercased
before comparison.  Returns the best candidate only when its score
reaches the threshold. -/
def select_best_translation (sim : String → String → ℚ)
    (candidates : List Candidate) (desired : Option String)
    (threshold : ℚ) : Option Candidate :=
  match desired with
  | none => none
  | some d =>
    if d = "" then none
    else
      let st := candidates.foldl (selStep sim (pyLower d)) ⟨none, -1⟩
      if st.bestScore ≥ threshold then st.best else none

/-- The score select_best_translation assigns to a candidate: similarity
of the lowercased desired text and the lowercased display text. -/
def candScore (sim : String → String → ℚ) (d : String) (c : Candidate) : ℚ :=
  sim (pyLower d) (pyLower (candText c))

/-- A concrete similarity function used to instantiate witnesses: it
agrees with difflib's ratio on a pair of equal strings (ratio 1). -/
def simEq (a b : String) : ℚ :=
  if a = b then 1 else 0

instance exceptDecEq {ε α : Type} [DecidableEq ε] [DecidableEq α] :
    DecidableEq (Except ε α) := fun x y =>
  match x, y with
  | .ok a, .ok b => if h : a = b then isTrue (by rw [h]) else isFalse (by simp [h])
  | .error a, .error b => if h : a = b then isTrue (by rw [h]) else isFalse (by simp [h])
  | .ok _, .error _ => isFalse (by simp)
  | .error _, .ok _ => isFalse (by simp)

/-- The Python exceptions observable by the modelled code paths. -/
inductive PyExc where
  | httpStatus (status : Option Nat)
  | request
  | leo
  | other
deriving DecidableEq

/-- Whether _with_reauth catches and retries an exception: only an
httpx.HTTPStatusError whose status _should_reauth accepts. -/
def shouldReauthExc : PyExc → Bool
  | .httpStatus st => _should_reauth st
  | _ => false

/-- Remote interactions performed by _with_reauth, for the event trace. -/
inductive REvent where
  | callFunc
  | callLogin
deriving DecidableEq

/-- The environment of one _with_reauth invocation: the outcome of the
first call of the wrapped function, of login, and of the retried call. -/
structure ReauthEnv (α : Type) where
  first : Except PyExc α
  login : Except PyExc Unit
  second : Except PyExc α

/-- _with_reauth from client.py: try the call; on an HTTPStatusError with
status 400, 401 or 403 re-authenticate once and retry once; every other
failure, and any failure of the retry or of the re-authentication itself,
propagates.  The second component records the calls performed. -/
def _with_reauth {α : Type} (env : ReauthEnv α) :
    Except PyExc α × List REvent :=
  match env.first with
  | .ok v => (.ok v, [.callFunc])
  | .error e =>
    if shouldReauthExc e then
      match env.login with
      | .error le => (.error le, [.callFunc, .callLogin])
      | .ok _ => (env.second, [.callFunc, .callLogin, .callFunc])
    else (.error e, [.callFunc])

/-- One group of the GetWords response payload. -/
structure Group where
  words : Option (Option (List WordData))
deriving DecidableEq

/-- The GetWords response payload as read by get_word_data. -/
structure GetWordsResp where
  status : Option (Option String)
  data : Option (Option (List Group))
deriving DecidableEq

/-- The matching test of the get_word_data search loop: the query matches
the normalized wordValue, or the word has a truthy wordLemmaValue whose
normalization is truthy and matches. -/
def wordMatchesQuery (q : String) (wd : WordData) : Bool :=
  let word_value := pyStrip (pyLower (wd.wordValue.getD ""))
  let word_lemma_raw := wd.wordLemmaValue.getD ""
  let word_lemma := pyStrip (pyLower word_lemma_raw)
  word_value == q || (word_lemma_raw ≠ "" && word_lemma ≠ "" && word_lemma == q)

/-- The nested search of get_word_data: first matching word of the first
group that contains one (`group.get("words") or []`). -/
def findInGroups (q : String) : List Group → Option WordData
  | [] => none
  | g :: rest =>
    match (g.words.join.getD []).find? (wordMatchesQuery q) with
    | some wd => some wd
    | none => findInGroups q rest

/-- The try-block of get_word_data (client.py:407-479), as a function of
the outcome of the wrapped GetWords call.  Every exception raised inside
it is caught and mapped to None (the code catches HTTPStatusError,
RequestError, LinguaLeoError and Exception alike); a non-ok status or a
falsy data payload is also None; otherwise the groups are searched. -/
def lookupTryBlock (searchOutcome : Except PyExc GetWordsResp)
    (word : String) : Option WordData :=
  match searchOutcome with
  | .error _ => none
  | .ok resp =>
    if resp.status.join ≠ some "ok" then none
    else
      match (match resp.data with | some v => v | none => some []) with
      | none => none
      | some groups =>
        if groups = [] then none
        else findInGroups (pyStrip (pyLower word)) groups

/-- get_word_data from client.py in full: the
`await self.ensure_authenticated()` preamble (client.py:406) runs OUTSIDE
the try, so its failure — e.g. login's raise_for_status (client.py:253)
failing when no cookies are cached — propagates to the caller; only the
search call and its decoding that follow are inside the try-block, which
swallows every failure into None. -/
def get_word_data (authOutcome : Except PyExc Unit)
    (searchOutcome : Except PyExc GetWordsResp) (word : String) :
    Except PyExc (Option WordData) :=
  match authOutcome with
  | .error e => .error e
  | .ok _ => .ok (lookupTryBlock searchOutcome word)

/-- The business errors raised by add_word_with_hint (all are raised as
LinguaLeoError in the code, with distinct messages). -/
inductive LeoError where
  | wordExists (word : String)
  | translationExists (word : String) (hint : String)
  | noCandidates
  | noTranslation
deriving DecidableEq

/-- A failure of add_word_with_hint: a business error it raises itself or
an exception propagated from a remote call. -/
inductive AddFailure where
  | leo (e : LeoError)
  | pyExc (e : PyExc)
deriving DecidableEq

/-- The getTranslates response payload as read by add_word_with_hint. -/
structure TranslatePayload where
  translate : Option (Option (List Candidate))
  translations : Option (Option (List Candidate))
deriving DecidableEq

/-- Python `a or b` on two optional candidate lists (None and the empty
list are falsy). -/
def listOr (a b : Option (List Candidate)) : Option (List Candidate) :=
  match a with
  | some l => if l = [] then b else some l
  | none => b

/-- `translate_payload.get("translate") or translate_payload.get("translations") or []`. -/
def payloadCandidates (p : TranslatePayload) : List Candidate :=
  (listOr p.translate.join p.translations.join).getD []

/-- The environment of one add_word_with_hint invocation: the result of
the word lookup when its authentication preamble did not raise (the
try-block of get_word_data swallows every other failure; a preamble
failure aborts add_word_with_hint before anything modelled here, see
get_word_data), the net outcome of get_translates and, for each
candidate, the net outcome of the write (both already include their
internal re-auth retry, which is modelled separately by _with_reauth). -/
structure AddEnv (ρ : Type) where
  lookup : Option WordData
  translates : Except PyExc TranslatePayload
  write : Candidate → Except PyExc ρ

/-- Remote operations performed by add_word_with_hint, for the trace. -/
inductive AEvent where
  | lookupCall
  | translatesCall
  | writeCall
deriving DecidableEq

/-- AddWordResult from client.py. -/
structure AddWordResult (ρ : Type) where
  response : ρ
  translation_used : Candidate
  auto_selected : Bool
deriving DecidableEq

/-- Python truthiness of the optional hint string (`if translation_hint:`):
callers of the client normalize an empty hint to None, and the code treats
None and the empty string identically. -/
def hintTruthy : Option String → Bool
  | none => false
  | some s => s ≠ ""

/-- The locally derived id of a synthetic candidate:
`custom_id = hash(translation_hint) % (10**9)`, negated when negative
(Lean's Int.emod, like Python's %, is already nonnegative here). -/
def syntheticId (pyHash : String → Int) (h : String) : Int :=
  let custom_id0 : Int := pyHash h % (10 ^ 9 : Int)
  if custom_id0 < 0 then -custom_id0 else custom_id0

/-- The synthetic ("custom") translation candidate fabricated from the
hint when no remote candidate matches. -/
def syntheticCandidate (pyHash : String → Int) (h : String) : Candidate :=
  ⟨some (some (syntheticId pyHash h)), some (some h), some (some h),
    some (some 1), some (some 1), false⟩

/-- The final write step of add_word_with_hint: call the write with the
chosen candidate and build the AddWordResult on success. -/
def writeStep {ρ : Type} (env : AddEnv ρ) (m : Candidate) (auto : Bool) :
    Except AddFailure (AddWordResult ρ) × List AEvent :=
  match env.write m with
  | .error e => (.error (.pyExc e), [.lookupCall, .translatesCall, .writeCall])
  | .ok resp => (.ok ⟨resp, m, auto⟩, [.lookupCall, .translatesCall, .writeCall])

/-- The candidate-resolution step of add_word_with_hint: with a truthy
hint, the matcher's choice or else the synthetic candidate; with no (or
an empty) hint, the first candidate, auto-selected, or the
no-candidates error. -/
def resolveCandidate (pyHash : String → Int) (sim : String → String → ℚ)
    (candidates : List Candidate) (translation_hint : Option String) :
    Except LeoError (Candidate × Bool) :=
  if hintTruthy translation_hint then
    let h := translation_hint.getD ""
    match select_best_translation sim candidates (some h) defaultThreshold with
    | some m => .ok (m, false)
    | none => .ok (syntheticCandidate pyHash h, false)
  else
    match candidates with
    | [] => .error .noCandidates
    | c :: _ => .ok (c, true)

/-- The duplicate check of add_word_with_hint, performed on the looked-up
word record before any translation lookup: a falsy hint or a hint equal
to an existing translation is an error. -/
def dupCheck (word : String) (translation_hint : Option String)
    (lookup : Option WordData) : Option LeoError :=
  match lookup with
  | some wd =>
    let existing := extract_existing_translations wd
    if hintTruthy translation_hint = false then some (.wordExists word)
    else if translation_exists existing (translation_hint.getD "") then
      some (.translationExists word (translation_hint.getD ""))
    else none
  | none => none

/-- The part of add_word_with_hint after the duplicate check passed:
fetch the candidates, resolve, check the chosen dict is truthy
(`if not match:`), write. -/
def afterLookup {ρ : Type} (pyHash : String → Int)
    (sim : String → String → ℚ) (env : AddEnv ρ)
    (translation_hint : Option String) :
    Except AddFailure (AddWordResult ρ) × List AEvent :=
  match env.translates with
  | .error e => (.error (.pyExc e), [.lookupCall, .translatesCall])
  | .ok payload =>
    match resolveCandidate pyHash sim (payloadCandidates payload) translation_hint with
    | .error e => (.error (.leo e), [.lookupCall, .translatesCall])
    | .ok (m, auto) =>
      if m.isTruthy = false then
        (.error (.leo .noTranslation), [.lookupCall, .translatesCall])
      else writeStep env m auto

/-- add_word_with_hint from client.py: look the word up; when found,
fail on a missing hint or on a hint equal to an existing translation;
fetch the translation candidates; resolve the candidate (matcher, then
synthetic fallback, with a hint; first candidate, with none); check the
chosen dict is truthy (`if not match:`); write.  The second component
records the remote operations performed, in order. -/
def add_word_with_hint {ρ : Type} (pyHash : String → Int)
    (sim : String → String → ℚ) (env : AddEnv ρ) (word : String)
    (translation_hint : Option String) :
    Except AddFailure (AddWordResult ρ) × List AEvent :=
  match dupCheck word translation_hint env.lookup with
  | some e => (.error (.leo e), [.lookupCall])
  | none => afterLookup pyHash sim env translation_hint

theorem data_empty : ("" : String).data = [] := rfl

theorem pyLower_eq_empty (s : String) : (pyLower s = "") ↔ (s = "") := by
  cases s with
  | mk l =>
    cases l with
    | nil => simp [pyLower]
    | cons c cs => simp [pyLower, String.ext_iff, data_empty]

/-- Loop invariant of select_best_translation after processing the prefix
`p`: either nothing eligible has been seen and the state is the initial
one, or the state holds the first-seen maximal eligible candidate of `p`. -/
def SelInv (sim : String → String → ℚ) (dl : String)
    (p : List Candidate) (st : SelState) : Prop :=
  (st = ⟨none, -1⟩ ∧ ∀ c ∈ p, pyLower (candText c) = "") ∨
  (∃ c l r, p = l ++ c :: r ∧ st.best = some c ∧ pyLower (candText c) ≠ "" ∧
    st.bestScore = sim dl (pyLower (candText c)) ∧
    (∀ x ∈ l, pyLower (candText x) ≠ "" →
      sim dl (pyLower (candText x)) < st.bestScore) ∧
    (∀ x ∈ r, pyLower (candText x) ≠ "" →
      sim dl (pyLower (candText x)) ≤ st.bestScore))

theorem selInv_step (sim : String → String → ℚ) (dl : String)
    (hsim : ∀ a b, 0 ≤ sim a b) (p : List Candidate) (st : SelState)
    (c : Candidate) (h : SelInv sim dl p st) :
    SelInv sim dl (p ++ [c]) (selStep sim dl st c) := by
  unfold selStep
  by_cases htext : pyLower (candText c) = ""
  · rw [if_pos htext]
    rcases h with ⟨hst, hall⟩ | ⟨c0, l, r, hp, hbest, helig, hsc, hl, hr⟩
    · exact Or.inl ⟨hst, by
        intro x hx
        rcases List.mem_append.mp hx with hx | hx
        · exact hall x hx
        · rcases List.mem_singleton.mp hx with rfl
          exact htext⟩
    · refine Or.inr ⟨c0, l, r ++ [c], by rw [hp]; simp, hbest, helig, hsc, hl, ?_⟩
      intro x hx hex
      rcases List.mem_append.mp hx with hx | hx
      · exact hr x hx hex
      · rcases List.mem_singleton.mp hx with rfl
        exact absurd htext hex
  · rw [if_neg htext]
    by_cases hgt : sim dl (pyLower (candText c)) > st.bestScore
    · rw [if_pos hgt]
      refine Or.inr ⟨c, p, [], by simp, rfl, htext, rfl, ?_, by simp⟩
      intro x hx hex
      rcases h with ⟨hst, hall⟩ | ⟨c0, l, r, hp, hbest, helig, hsc, hl, hr⟩
      · exact absurd (hall x hx) hex
      · rw [hp] at hx
        rcases List.mem_append.mp hx with hx | hx
        · exact lt_trans (hl x hx hex) hgt
        · rcases List.mem_cons.mp hx with rfl | hx
          · rw [← hsc]; exact hgt
          · exact lt_of_le_of_lt (hr x hx hex) hgt
    · rw [if_neg hgt]
      rcases h with ⟨hst, hall⟩ | ⟨c0, l, r, hp, hbest, helig, hsc, hl, hr⟩
      · exfalso
        apply hgt
        rw [hst]
        calc (⟨none, -1⟩ : SelState).bestScore = -1 := rfl
          _ < 0 := by norm_num
          _ ≤ sim dl (pyLower (candText c)) := hsim _ _
      · refine Or.inr ⟨c0, l, r ++ [c], by rw [hp]; simp, hbest, helig, hsc, hl, ?_⟩
        intro x hx hex
        rcases List.mem_append.mp hx with hx | hx
        · exact hr x hx hex
        · rcases List.mem_singleton.mp hx with rfl
          exact le_of_not_lt hgt

theorem selInv_foldl (sim : String → String → ℚ) (dl : String)
    (hsim : ∀ a b, 0 ≤ sim a b) :
    ∀ (rest p : List Candidate) (st : SelState), SelInv sim dl p st →
      SelInv sim dl (p ++ rest) (rest.foldl (selStep sim dl) st)
  | [], p, st, h => by simpa using h
  | c :: rest, p, st, h => by
    have h2 := selInv_foldl sim dl hsim rest (p ++ [c]) (selStep sim dl st c)
      (selInv_step sim dl hsim p st c h)
    simpa using h2

theorem selInv_run (sim : String → String → ℚ) (dl : String)
    (hsim : ∀ a b, 0 ≤ sim a b) (cs : List Candidate) :
    SelInv sim dl cs (cs.foldl (selStep sim dl) ⟨none, -1⟩) := by
  have h := selInv_foldl sim dl hsim cs [] ⟨none, -1⟩ (Or.inl ⟨rfl, by simp⟩)
  simpa using h

theorem select_best_some {sim : String → String → ℚ}
    {cs : List Candidate} {d : String} {t : ℚ} {c : Candidate}
    (hsim : ∀ a b, 0 ≤ sim a b)
    (h : select_best_translation sim cs (some d) t = some c) :
    c ∈ cs ∧ candText c ≠ "" ∧ t ≤ candScore sim d c ∧
    (∀ x ∈ cs, candText x ≠ "" → candScore sim d x ≤ candScore sim d c) ∧
    ∃ l r, cs = l ++ c :: r ∧
      ∀ x ∈ l, candText x ≠ "" → candScore sim d x < candScore sim d c := by
  simp only [select_best_translation] at h
  by_cases hd : d = ""
  · rw [if_pos hd] at h; exact absurd h (by simp)
  · rw [if_neg hd] at h
    have hinv := selInv_run sim (pyLower d) hsim cs
    by_cases hth : (cs.foldl (selStep sim (pyLower d)) ⟨none, -1⟩).bestScore ≥ t
    · rw [if_pos hth] at h
      rcases hinv with ⟨hst, _⟩ | ⟨c0, l, r, hp, hbest, helig, hsc, hl, hr⟩
      · rw [hst] at h; exact absurd h (by simp)
      · rw [hbest] at h
        rcases Option.some.inj h with rfl
        rw [hsc] at hth hl hr
        refine ⟨by rw [hp]; simp, ?_, hth, ?_, l, r, hp, ?_⟩
        · exact fun he => helig ((pyLower_eq_empty _).mpr he)
        · intro x hx hex
          have hex2 : pyLower (candText x) ≠ "" :=
            fun he => hex ((pyLower_eq_empty _).mp he)
          rw [hp] at hx
          rcases List.mem_append.mp hx with hx | hx
          · exact le_of_lt (hl x hx hex2)
          · rcases List.mem_cons.mp hx with rfl | hx
            · exact le_refl _
            · exact hr x hx hex2
        · intro x hx hex
          exact hl x hx (fun he => hex ((pyLower_eq_empty _).mp he))
    · rw [if_neg hth] at h
      exact absurd h (by simp)

theorem select_best_none {sim : String → String → ℚ}
    {cs : List Candidate} {d : String} {t : ℚ}
    (hsim : ∀ a b, 0 ≤ sim a b) (hd : d ≠ "")
    (h : select_best_translation sim cs (some d) t = none) :
    ∀ x ∈ cs, candText x ≠ "" → candScore sim d x < t := by
  simp only [select_best_translation] at h
  rw [if_neg hd] at h
  have hinv := selInv_run sim (pyLower d) hsim cs
  intro x hx hex
  have hex2 : pyLower (candText x) ≠ "" :=
    fun he => hex ((pyLower_eq_empty _).mp he)
  by_cases hth : (cs.foldl (selStep sim (pyLower d)) ⟨none, -1⟩).bestScore ≥ t
  · rw [if_pos hth] at h
    rcases hinv with ⟨_, hall⟩ | ⟨c0, l, r, hp, hbest, helig, hsc, hl, hr⟩
    · exact absurd (hall x hx) hex2
    · rw [hbest] at h; exact absurd h (by simp)
  · rw [if_neg hth] at h
    push_neg at hth
    rcases hinv with ⟨hst, hall⟩ | ⟨c0, l, r, hp, hbest, helig, hsc, hl, hr⟩
    · exact absurd (hall x hx) hex2
    · rw [hp] at hx
      unfold candScore
      rcases List.mem_append.mp hx with hx | hx
      · exact lt_trans (hl x hx hex2) hth
      · rcases List.mem_cons.mp hx with rfl | hx
        · rw [← hsc]; exact hth
        · exact lt_of_le_of_lt (hr x hx hex2) hth

theorem dedupCI_sublist (seen l : List String) :
    (dedupCI seen l).Sublist l := by
  induction l generalizing seen with
  | nil => simp [dedupCI]
  | cons t rest ih =>
    unfold dedupCI
    by_cases h : pyLower t ∈ seen
    · rw [if_pos h]
      exact (ih seen).trans (List.sublist_cons_self t rest)
    · rw [if_neg h]
      exact (ih _).cons₂ t

theorem dedupCI_mem {x : String} :
    ∀ {seen l : List String}, x ∈ dedupCI seen l → x ∈ l ∧ pyLower x ∉ seen := by
  intro seen l
  induction l generalizing seen with
  | nil => intro h; simp [dedupCI] at h
  | cons t rest ih =>
    intro h
    unfold dedupCI at h
    by_cases ht : pyLower t ∈ seen
    · rw [if_pos ht] at h
      obtain ⟨h1, h2⟩ := ih h
      exact ⟨List.mem_cons_of_mem _ h1, h2⟩
    · rw [if_neg ht] at h
      rcases List.mem_cons.mp h with rfl | h
      · exact ⟨List.mem_cons_self _ _, ht⟩
      · obtain ⟨h1, h2⟩ := ih h
        exact ⟨List.mem_cons_of_mem _ h1,
          fun hx => h2 (List.mem_cons_of_mem _ hx)⟩

theorem dedupCI_pairwise (seen l : List String) :
    (dedupCI seen l).Pairwise (fun a b => pyLower a ≠ pyLower b) := by
  induction l generalizing seen with
  | nil => simp [dedupCI]
  | cons t rest ih =>
    unfold dedupCI
    by_cases ht : pyLower t ∈ seen
    · rw [if_pos ht]; exact ih seen
    · rw [if_neg ht]
      refine List.Pairwise.cons ?_ (ih _)
      intro y hy he
      exact (dedupCI_mem hy).2 (by rw [← he]; exact List.mem_cons_self _ _)

theorem dedupCI_covers (x : String) (l : List String) :
    ∀ seen : List String, x ∈ l → pyLower x ∉ seen →
    ∃ y ∈ dedupCI seen l, pyLower y = pyLower x := by
  induction l with
  | nil => intro seen hx _; simp at hx
  | cons t rest ih =>
    intro seen hx hs
    unfold dedupCI
    by_cases ht : pyLower t ∈ seen
    · rw [if_pos ht]
      rcases List.mem_cons.mp hx with rfl | hx
      · exact absurd ht hs
      · exact ih seen hx hs
    · rw [if_neg ht]
      by_cases he : pyLower x = pyLower t
      · exact ⟨t, List.mem_cons_self _ _, he.symm⟩
      · rcases List.mem_cons.mp hx with rfl | hx
        · exact absurd rfl he
        · obtain ⟨y, hy1, hy2⟩ := ih (pyLower t :: seen) hx (by
            intro hmem
            rcases List.mem_cons.mp hmem with h | h
            · exact he h
            · exact hs h)
          exact ⟨y, List.mem_cons_of_mem _ hy1, hy2⟩

theorem dedupCI_first {x : String} :
    ∀ {seen l : List String}, x ∈ dedupCI seen l →
    ∃ l1 l2, l = l1 ++ x :: l2 ∧
      ∀ z ∈ l1, pyLower z ∈ seen ∨ pyLower z ≠ pyLower x := by
  intro seen l
  induction l generalizing seen with
  | nil => intro h; simp [dedupCI] at h
  | cons t rest ih =>
    intro h
    unfold dedupCI at h
    by_cases ht : pyLower t ∈ seen
    · rw [if_pos ht] at h
      obtain ⟨l1, l2, heq, hall⟩ := ih h
      exact ⟨t :: l1, l2, by rw [heq]; rfl, by
        intro z hz
        rcases List.mem_cons.mp hz with rfl | hz
        · exact Or.inl ht
        · exact hall z hz⟩
    · rw [if_neg ht] at h
      rcases List.mem_cons.mp h with rfl | h
      · exact ⟨[], rest, rfl, by simp⟩
      · have hne : pyLower x ≠ pyLower t := by
          intro he
          exact (dedupCI_mem h).2 (by rw [he]; exact List.mem_cons_self _ _)
        obtain ⟨l1, l2, heq, hall⟩ := ih h
        refine ⟨t :: l1, l2, by rw [heq]; rfl, ?_⟩
        intro z hz
        rcases List.mem_cons.mp hz with rfl | hz
        · exact Or.inr (fun he => hne he.symm)
        · rcases hall z hz with hmem | hne2
          · rcases List.mem_cons.mp hmem with he | hmem
            · exact Or.inr (by rw [he]; exact fun hh => hne hh.symm)
            · exact Or.inl hmem
          · exact Or.inr hne2

theorem writeStep_ok {ρ : Type} {env : AddEnv ρ} {m : Candidate} {auto : Bool}
    {res : AddWordResult ρ} {events : List AEvent}
    (h : writeStep env m auto = (.ok res, events)) :
    res.translation_used = m ∧ res.auto_selected = auto ∧
      env.write m = .ok res.response ∧
      events = [.lookupCall, .translatesCall, .writeCall] := by
  unfold writeStep at h
  cases hw : env.write m with
  | error e =>
    rw [hw] at h
    simp only [] at h
    exact absurd (congrArg Prod.fst h) (by simp)
  | ok resp =>
    rw [hw] at h
    simp only [] at h
    have h1 := congrArg Prod.fst h
    have h2 := congrArg Prod.snd h
    simp only [] at h1 h2
    rcases Except.ok.inj h1 with h3
    subst h3
    exact ⟨rfl, rfl, rfl, h2.symm⟩

theorem add_found_nohint {ρ : Type} (pyHash : String → Int)
    (sim : String → String → ℚ) (env : AddEnv ρ) (word : String)
    (hint : Option String) (wd : WordData)
    (hf : env.lookup = some wd) (hh : hintTruthy hint = false) :
    add_word_with_hint pyHash sim env word hint
      = (.error (.leo (.wordExists word)), [.lookupCall]) := by
  unfold add_word_with_hint dupCheck
  rw [hf, hh]
  simp

theorem add_found_duphint {ρ : Type} (pyHash : String → Int)
    (sim : String → String → ℚ) (env : AddEnv ρ) (word h : String)
    (wd : WordData) (hf : env.lookup = some wd) (hh : h ≠ "")
    (hx : translation_exists (extract_existing_translations wd) h = true) :
    add_word_with_hint pyHash sim env word (some h)
      = (.error (.leo (.translationExists word h)), [.lookupCall]) := by
  unfold add_word_with_hint dupCheck
  have hht : hintTruthy (some h) = true := by simp [hintTruthy, hh]
  rw [hf, hht]
  simp [hx]

theorem add_found_newhint {ρ : Type} (pyHash : String → Int)
    (sim : String → String → ℚ) (env : AddEnv ρ) (word h : String)
    (wd : WordData) (hf : env.lookup = some wd) (hh : h ≠ "")
    (hx : translation_exists (extract_existing_translations wd) h = false) :
    add_word_with_hint pyHash sim env word (some h)
      = afterLookup pyHash sim env (some h) := by
  unfold add_word_with_hint dupCheck
  have hht : hintTruthy (some h) = true := by simp [hintTruthy, hh]
  rw [hf, hht]
  simp [hx]

theorem add_notfound {ρ : Type} (pyHash : String → Int)
    (sim : String → String → ℚ) (env : AddEnv ρ) (word : String)
    (hint : Option String) (hf : env.lookup = none) :
    add_word_with_hint pyHash sim env word hint
      = afterLookup pyHash sim env hint := by
  unfold add_word_with_hint dupCheck
  rw [hf]

theorem translatesCall_mem_afterLookup {ρ : Type} (pyHash : String → Int)
    (sim : String → String → ℚ) (env : AddEnv ρ) (hint : Option String) :
    AEvent.translatesCall ∈ (afterLookup pyHash sim env hint).2 := by
  unfold afterLookup
  rcases htr : env.translates with e | payload
  · simp
  · rcases hr : resolveCandidate pyHash sim (payloadCandidates payload) hint with e | ⟨m, auto⟩
    · simp [hr]
    · simp only [hr]
      by_cases ht : m.isTruthy = false
      · simp [ht]
      · simp only [if_neg ht]
        unfold writeStep
        rcases hw : env.write m with e | resp <;> simp [hw]

/-- A concrete stand-in for Python's process-fixed string hash, used to
instantiate witnesses. -/
def hashW : String → Int :=
  fun s => (s.data.map Char.toNat).foldl (fun a n => a * 31 + n) 7

theorem simEq_nonneg : ∀ a b, 0 ≤ simEq a b := by
  intro a b
  unfold simEq
  split <;> norm_num

/-- Witness fixture: a well-formed candidate. -/
def cW : Candidate :=
  ⟨some (some 1), some (some "перевод"), some (some "перевод"), none, none, false⟩

/-- Witness fixture: a word record whose combined translation is "слово". -/
def wdW : WordData :=
  ⟨some (some "слово"), none, some "word", none⟩

/-- Witness fixture: word absent, one well-formed candidate, write succeeds. -/
def envA : AddEnv Unit :=
  ⟨none, .ok ⟨some (some [cW]), none⟩, fun _ => .ok ()⟩

/-- Witness fixture: word present with translation "слово". -/
def envB : AddEnv Unit :=
  ⟨some wdW, .ok ⟨some (some [cW]), none⟩, fun _ => .ok ()⟩

/-- C2: _with_reauth re-authenticates once and retries exactly once when
the first attempt fails with HTTP status 400, 401 or 403 and the
re-authentication succeeds, returning the retry's outcome unchanged,
success or failure; a first failure of any other kind propagates
unchanged with no re-authentication; and no execution performs more than
one login or more than two calls of the wrapped function. -/
theorem with_reauth_retry_policy {α : Type} (env : ReauthEnv α) :
    (∀ s, env.first = .error (.httpStatus (some s)) →
      (s = 400 ∨ s = 401 ∨ s = 403) → env.login = .ok () →
      _with_reauth env = (env.second, [.callFunc, .callLogin, .callFunc])) ∧
    (∀ e, env.first = .error e → shouldReauthExc e = false →
      _with_reauth env = (.error e, [.callFunc])) ∧
    (_with_reauth env).2.count .callLogin ≤ 1 ∧
    (_with_reauth env).2.count .callFunc ≤ 2 := by
  refine ⟨?_, ?_, ?_⟩
  · intro s h1 h2 h3
    have hs : shouldReauthExc (.httpStatus (some s)) = true := by
      rcases h2 with rfl | rfl | rfl <;> rfl
    unfold _with_reauth
    rw [h1]
    simp only [hs, if_true, h3]
  · intro e h1 h2
    unfold _with_reauth
    rw [h1]
    simp only [h2]
    simp
  · unfold _with_reauth
    rcases hf : env.first with e | v
    · by_cases hs : shouldReauthExc e = true
      · simp only [hs, if_true]
        rcases hl : env.login with le | u
        · simp
        · simp
      · simp only [Bool.not_eq_true] at hs
        simp only [hs]
        simp
    · simp

/-- C4: evaluation of the cookie-merge of LinguaLeoClient.__init__ at the
failing input: the persisted file's value wins over the explicit
cookie-string override because the file is merged after the override;
the union of non-overlapping keys does hold. -/
theorem initCookies_file_overrides_string :
    dictGet (initCookies (some "a=strval; b=s2") [("a", "fileval"), ("c", "f3")]) "a"
      = some "fileval" ∧
    dictGet (initCookies (some "a=strval; b=s2") [("a", "fileval"), ("c", "f3")]) "b"
      = some "s2" ∧
    dictGet (initCookies (some "a=strval; b=s2") [("a", "fileval"), ("c", "f3")]) "c"
      = some "f3" := by decide

/-- C10: a falsy desired text (None or the empty string) makes
select_best_translation return None without error, whatever the
candidates, even ones with empty display text. -/
theorem select_best_falsy_desired (sim : String → String → ℚ)
    (cs : List Candidate) (t : ℚ) :
    select_best_translation sim cs none t = none ∧
    select_best_translation sim cs (some "") t = none := by
  constructor
  · rfl
  · simp [select_best_translation]

/-- Witness fixture: a first attempt failing with 401, a successful
re-authentication and a retry failing with 401 again. -/
def envR : ReauthEnv Unit :=
  ⟨.error (.httpStatus (some 401)), .ok (), .error (.httpStatus (some 401))⟩

theorem with_reauth_retry_policy_witness :
    envR.first = .error (.httpStatus (some 401)) ∧
    _with_reauth envR
      = (.error (.httpStatus (some 401)), [.callFunc, .callLogin, .callFunc]) :=
  ⟨rfl, (with_reauth_retry_policy envR).1 401 rfl (Or.inr (Or.inl rfl)) rfl⟩

/-- C1: when the word lookup finds the word, a falsy hint (None or the
empty string — callers normalize the empty string to None) fails with the
word-exists duplicate error, and a truthy hint that case-insensitively
and whitespace-trimmed equals one of the existing translations fails with
the translation-exists duplicate error, both before any translation
lookup or write (the trace holds the lookup only); a truthy hint that
differs from every existing translation proceeds to candidate
resolution (the trace reaches the translation lookup). -/
theorem add_word_duplicate_policy {ρ : Type} (pyHash : String → Int)
    (sim : String → String → ℚ) (env : AddEnv ρ) (word : String)
    (hint : Option String) (wd : WordData) (hf : env.lookup = some wd) :
    (hintTruthy hint = false →
      add_word_with_hint pyHash sim env word hint
        = (.error (.leo (.wordExists word)), [.lookupCall])) ∧
    (∀ h, hint = some h → h ≠ "" →
      translation_exists (extract_existing_translations wd) h = true →
      add_word_with_hint pyHash sim env word hint
        = (.error (.leo (.translationExists word h)), [.lookupCall])) ∧
    (∀ h, hint = some h → h ≠ "" →
      translation_exists (extract_existing_translations wd) h = false →
      AEvent.translatesCall ∈ (add_word_with_hint pyHash sim env word hint).2) := by
  refine ⟨fun hh => add_found_nohint pyHash sim env word hint wd hf hh, ?_, ?_⟩
  · rintro h rfl hne hx
    exact add_found_duphint pyHash sim env word h wd hf hne hx
  · rintro h rfl hne hx
    rw [add_found_newhint pyHash sim env word h wd hf hne hx]
    exact translatesCall_mem_afterLookup pyHash sim env (some h)

theorem add_word_duplicate_policy_witness :
    envB.lookup = some wdW ∧
    add_word_with_hint hashW simEq envB "word" none
      = (.error (.leo (.wordExists "word")), [.lookupCall]) ∧
    add_word_with_hint hashW simEq envB "word" (some " СЛОВО ")
      = (.error (.leo (.translationExists "word" " СЛОВО ")), [.lookupCall]) ∧
    AEvent.translatesCall
      ∈ (add_word_with_hint hashW simEq envB "word" (some "новое")).2 :=
  ⟨rfl,
   (add_word_duplicate_policy hashW simEq envB "word" none wdW rfl).1 (by decide),
   (add_word_duplicate_policy hashW simEq envB "word" (some " СЛОВО ") wdW rfl).2.1
     " СЛОВО " rfl (by decide) (by decide),
   (add_word_duplicate_policy hashW simEq envB "word" (some "новое") wdW rfl).2.2
     "новое" rfl (by decide) (by decide)⟩

/-- The behaviour select_best_translation guarantees for a truthy desired
text: a returned candidate is a member with non-empty display text whose
score reaches the threshold and is maximal, and is the first-seen
maximal one; a None return means every non-skipped candidate scored
below the threshold. -/
def SelectBestSpec (sim : String → String → ℚ) (cs : List Candidate)
    (d : String) (t : ℚ) : Prop :=
  (∀ c, select_best_translation sim cs (some d) t = some c →
    c ∈ cs ∧ candText c ≠ "" ∧ t ≤ candScore sim d c ∧
    (∀ x ∈ cs, candText x ≠ "" → candScore sim d x ≤ candScore sim d c) ∧
    ∃ l r, cs = l ++ c :: r ∧
      ∀ x ∈ l, candText x ≠ "" → candScore sim d x < candScore sim d c) ∧
  (select_best_translation sim cs (some d) t = none →
    ∀ x ∈ cs, candText x ≠ "" → candScore sim d x < t)

/-- C6: select_best_translation scores candidates by the similarity of
lowercased display text against the lowercased desired text, skips every
candidate with empty display text, returns the best-scoring non-skipped
candidate exactly when its score reaches the threshold (the default
threshold is 0.8, see defaultThreshold_eq) and None otherwise, and keeps
the first-seen candidate on tied maximal scores.  The hypothesis on sim
holds for difflib ratios, which lie in [0, 1]. -/
theorem select_best_translation_matcher (sim : String → String → ℚ)
    (cs : List Candidate) (d : String) (t : ℚ)
    (hsim : ∀ a b, 0 ≤ sim a b) (hd : d ≠ "") :
    SelectBestSpec sim cs d t :=
  ⟨fun _ h => select_best_some hsim h, fun h => select_best_none hsim hd h⟩

theorem select_best_translation_matcher_witness :
    (∀ a b, 0 ≤ simEq a b) ∧ ("перевод" ≠ "") ∧
    SelectBestSpec simEq [cW] "перевод" defaultThreshold :=
  ⟨simEq_nonneg, by decide,
   select_best_translation_matcher simEq [cW] "перевод" defaultThreshold
     simEq_nonneg (by decide)⟩

/-- Witness fixture: a word record with combined field
"доктор; врач; Доктор" (the worked example of the specification). -/
def wd9 : WordData :=
  ⟨some (some "доктор; врач; Доктор"), none, none, none⟩

/-- C9: extract_existing_translations returns the concatenation of the
trimmed semicolon-separated combined entries followed by the trimmed
structured texts (rawTranslations), deduplicated case-insensitively:
the output has pairwise distinct lowercasings, is a sublist of the raw
list (so order and casing are the raw, first-seen ones), every raw entry
is represented up to case, every output entry is the first raw entry
with its lowercasing, and the worked example holds. -/
theorem extract_existing_translations_spec (wd : WordData) :
    (extract_existing_translations wd).Sublist (rawTranslations wd) ∧
    (extract_existing_translations wd).Pairwise
      (fun a b => pyLower a ≠ pyLower b) ∧
    (∀ x ∈ rawTranslations wd,
      ∃ y ∈ extract_existing_translations wd, pyLower y = pyLower x) ∧
    (∀ y ∈ extract_existing_translations wd,
      ∃ l1 l2, rawTranslations wd = l1 ++ y :: l2 ∧
        ∀ z ∈ l1, pyLower z ≠ pyLower y) ∧
    extract_existing_translations wd9 = ["доктор", "врач"] := by
  refine ⟨dedupCI_sublist [] (rawTranslations wd),
    dedupCI_pairwise [] (rawTranslations wd), ?_, ?_, by decide⟩
  · intro x hx
    exact dedupCI_covers x (rawTranslations wd) [] hx (by simp)
  · intro y hy
    obtain ⟨l1, l2, heq, hall⟩ := dedupCI_first hy
    refine ⟨l1, l2, heq, ?_⟩
    intro z hz
    rcases hall z hz with hmem | hne
    · exact absurd hmem (by simp)
    · exact hne

theorem extract_existing_translations_spec_witness :
    "Доктор" ∈ rawTranslations wd9 ∧
    ∃ y ∈ extract_existing_translations wd9, pyLower y = pyLower "Доктор" :=
  ⟨by decide, (extract_existing_translations_spec wd9).2.2.1 "Доктор" (by decide)⟩

/-- Witness fixture: word absent and the candidates call failing with a
transport error. -/
def envTrErr : AddEnv Unit :=
  ⟨none, .error .request, fun _ => .ok ()⟩

/-- C5 (counterexample): a transport error raised by the search call
inside the word lookup does not propagate — with the authentication
preamble succeeded, get_word_data swallows it and returns the not-found
result None, exactly as it does for a malformed (non-ok-status)
response; so the decode-error fallback is not the only swallowed
failure. -/
theorem get_word_data_swallows_transport_error :
    get_word_data (.ok ()) (.error .request) "hello" = .ok none ∧
    get_word_data (.ok ()) (.error (.httpStatus (some 500))) "hello" = .ok none ∧
    get_word_data (.ok ())
      (.ok ⟨some (some "error"), some (some [⟨some (some [wdW])⟩])⟩) "word"
      = .ok none ∧
    get_word_data (.ok ())
      (.ok ⟨some (some "ok"), some (some [⟨some (some [wdW])⟩])⟩) "word"
      = .ok (some wdW) := by decide

theorem lookupTryBlock_ok_unfold (resp : GetWordsResp) (w : String) :
    lookupTryBlock (.ok resp) w
      = (if resp.status.join ≠ some "ok" then none
        else
          match (match resp.data with | some v => v | none => some []) with
          | none => none
          | some groups =>
            if groups = [] then none
            else findInGroups (pyStrip (pyLower w)) groups) := rfl

/-- C5 (amended): the lookup's try-block swallows every failure — any
exception of the wrapped search call (transport errors included), a
non-ok status, and a missing, null or empty data payload all yield None
(word not found); the lookup's one propagating failure is a failure of
the ensure_authenticated preamble (client.py:406), which runs outside
the try and surfaces unchanged; and outside the lookup the engine also
propagates — a failure of the candidates call surfaces unchanged as the
result of add_word_with_hint. -/
theorem get_word_data_fallback_policy :
    (∀ (e : PyExc) (so : Except PyExc GetWordsResp) (w : String),
      get_word_data (.error e) so w = .error e) ∧
    (∀ (e : PyExc) (w : String),
      get_word_data (.ok ()) (.error e) w = .ok none) ∧
    (∀ (resp : GetWordsResp) (w : String), resp.status.join ≠ some "ok" →
      get_word_data (.ok ()) (.ok resp) w = .ok none) ∧
    (∀ (resp : GetWordsResp) (w : String),
      resp.data = none ∨ resp.data = some none ∨ resp.data = some (some []) →
      get_word_data (.ok ()) (.ok resp) w = .ok none) ∧
    (∀ (ρ : Type) (pyHash : String → Int) (sim : String → String → ℚ)
      (env : AddEnv ρ) (word : String) (hint : Option String) (e : PyExc),
      env.lookup = none → env.translates = .error e →
      add_word_with_hint pyHash sim env word hint
        = (.error (.pyExc e), [.lookupCall, .translatesCall])) := by
  refine ⟨?_, ?_, ?_, ?_, ?_⟩
  · intro e so w
    rfl
  · intro e w
    rfl
  · intro resp w hs
    show Except.ok (lookupTryBlock (.ok resp) w) = .ok none
    rw [lookupTryBlock_ok_unfold, if_pos hs]
  · intro resp w hd
    show Except.ok (lookupTryBlock (.ok resp) w) = .ok none
    rw [lookupTryBlock_ok_unfold]
    by_cases hs : resp.status.join ≠ some "ok"
    · rw [if_pos hs]
    · rw [if_neg hs]
      rcases hd with hd | hd | hd <;> rw [hd] <;> rfl
  · intro ρ pyHash sim env word hint e hf htr
    rw [add_notfound pyHash sim env word hint hf]
    unfold afterLookup
    rw [htr]

theorem get_word_data_fallback_policy_witness :
    get_word_data (.error (.httpStatus (some 401)))
      (.ok ⟨some (some "ok"), none⟩) "word"
      = .error (.httpStatus (some 401)) ∧
    get_word_data (.ok ()) (.error .leo) "word" = .ok none ∧
    (⟨some none, some (some [])⟩ : GetWordsResp).status.join ≠ some "ok" ∧
    get_word_data (.ok ()) (.ok ⟨some none, some (some [])⟩) "word" = .ok none ∧
    (⟨some (some "ok"), none⟩ : GetWordsResp).data = none ∧
    get_word_data (.ok ()) (.ok ⟨some (some "ok"), none⟩) "word" = .ok none ∧
    envTrErr.lookup = none ∧ envTrErr.translates = .error .request ∧
    add_word_with_hint hashW simEq envTrErr "word" none
      = (.error (.pyExc .request), [.lookupCall, .translatesCall]) :=
  ⟨get_word_data_fallback_policy.1 (.httpStatus (some 401))
     (.ok ⟨some (some "ok"), none⟩) "word",
   get_word_data_fallback_policy.2.1 .leo "word",
   by decide,
   get_word_data_fallback_policy.2.2.1 ⟨some none, some (some [])⟩ "word"
     (by decide),
   rfl,
   get_word_data_fallback_policy.2.2.2.1 ⟨some (some "ok"), none⟩ "word"
     (Or.inl rfl),
   rfl, rfl,
   get_word_data_fallback_policy.2.2.2.2 Unit hashW simEq envTrErr "word" none
     .request rfl rfl⟩

theorem candText_truthy {c : Candidate} (h : candText c ≠ "") :
    c.isTruthy = true := by
  rcases c with ⟨cid, value, tr, cmain, csel, other⟩
  unfold candText strOr at h
  unfold Candidate.isTruthy
  rcases value with _ | v
  · rcases tr with _ | t
    · simp [Option.join] at h
    · rcases t with _ | ts
      · simp [Option.join] at h
      · simp
  · rcases v with _ | vs
    · rcases tr with _ | t
      · simp [Option.join] at h
      · rcases t with _ | ts
        · simp [Option.join] at h
        · simp
    · simp

theorem resolveCandidate_hint (pyHash : String → Int)
    (sim : String → String → ℚ) (cands : List Candidate) (h : String)
    (hne : h ≠ "") :
    resolveCandidate pyHash sim cands (some h)
      = (match select_best_translation sim cands (some h) defaultThreshold with
        | some m => .ok (m, false)
        | none => .ok (syntheticCandidate pyHash h, false)) := by
  unfold resolveCandidate
  have hht : hintTruthy (some h) = true := by simp [hintTruthy, hne]
  rw [hht]
  simp

theorem resolveCandidate_nohint (pyHash : String → Int)
    (sim : String → String → ℚ) (cands : List Candidate)
    (hint : Option String) (hh : hintTruthy hint = false) :
    resolveCandidate pyHash sim cands hint
      = (match cands with
        | [] => .error .noCandidates
        | c :: _ => .ok (c, true)) := by
  unfold resolveCandidate
  rw [hh]
  simp

theorem syntheticCandidate_truthy (pyHash : String → Int) (h : String) :
    (syntheticCandidate pyHash h).isTruthy = true := rfl

theorem syntheticCandidate_text (pyHash : String → Int) {h : String}
    (hne : h ≠ "") : candText (syntheticCandidate pyHash h) = h := by
  unfold syntheticCandidate candText strOr
  simp [Option.join, hne]

theorem afterLookup_hint_synth {ρ : Type} (pyHash : String → Int)
    (sim : String → String → ℚ) (env : AddEnv ρ)
    (payload : TranslatePayload) (h : String)
    (htr : env.translates = .ok payload) (hne : h ≠ "")
    (hsel : select_best_translation sim (payloadCandidates payload)
      (some h) defaultThreshold = none) :
    afterLookup pyHash sim env (some h)
      = writeStep env (syntheticCandidate pyHash h) false := by
  unfold afterLookup
  rw [htr]
  simp only [resolveCandidate_hint pyHash sim _ h hne, hsel]
  simp [syntheticCandidate_truthy]

theorem afterLookup_hint_match {ρ : Type} (pyHash : String → Int)
    (sim : String → String → ℚ) (env : AddEnv ρ)
    (payload : TranslatePayload) (h : String) (m : Candidate)
    (htr : env.translates = .ok payload)
    (hsim : ∀ a b, 0 ≤ sim a b) (hne : h ≠ "")
    (hsel : select_best_translation sim (payloadCandidates payload)
      (some h) defaultThreshold = some m) :
    afterLookup pyHash sim env (some h) = writeStep env m false := by
  unfold afterLookup
  rw [htr]
  simp only [resolveCandidate_hint pyHash sim _ h hne, hsel]
  have hm : m.isTruthy = true := candText_truthy (select_best_some hsim hsel).2.1
  simp [hm]

theorem afterLookup_nohint_cons {ρ : Type} (pyHash : String → Int)
    (sim : String → String → ℚ) (env : AddEnv ρ)
    (payload : TranslatePayload) (c : Candidate) (cs : List Candidate)
    (hint : Option String) (htr : env.translates = .ok payload)
    (hh : hintTruthy hint = false)
    (hcs : payloadCandidates payload = c :: cs) :
    afterLookup pyHash sim env hint
      = (if c.isTruthy = false then
          ((.error (.leo .noTranslation), [.lookupCall, .translatesCall]) :
            Except AddFailure (AddWordResult ρ) × List AEvent)
        else writeStep env c true) := by
  unfold afterLookup
  rw [htr]
  simp only [resolveCandidate_nohint pyHash sim _ hint hh, hcs]

theorem afterLookup_nohint_nil {ρ : Type} (pyHash : String → Int)
    (sim : String → String → ℚ) (env : AddEnv ρ)
    (payload : TranslatePayload) (hint : Option String)
    (htr : env.translates = .ok payload) (hh : hintTruthy hint = false)
    (hcs : payloadCandidates payload = []) :
    afterLookup pyHash sim env hint
      = (.error (.leo .noCandidates), [.lookupCall, .translatesCall]) := by
  unfold afterLookup
  rw [htr]
  simp only [resolveCandidate_nohint pyHash sim _ hint hh, hcs]

/-- Witness fixture: word absent and the candidates list holding only the
empty dict. -/
def envC3 : AddEnv Unit :=
  ⟨none, .ok ⟨some (some [emptyDict]), none⟩, fun _ => .ok ()⟩

/-- C3 (counterexample): with no hint and a NON-EMPTY candidate list whose
first element is the empty dict, the first candidate is NOT used — the
code's `if not match:` truthiness check fails it and the operation raises
the could-not-determine-translation error with no write. -/
theorem add_word_empty_first_candidate :
    payloadCandidates ⟨some (some [emptyDict]), none⟩ = [emptyDict] ∧
    add_word_with_hint hashW simEq envC3 "word" none
      = (.error (.leo .noTranslation), [.lookupCall, .translatesCall]) := by
  decide

/-- C3 (amended): candidate resolution with the word absent and a
successful candidates call: a truthy hint matched by no candidate yields
the synthetic candidate — display text equal to the hint, id the
deterministic syntheticId of the hint, auto_selected false — which is
passed to the write; with a falsy hint, a non-empty candidate list makes
the write use the first candidate with auto_selected true provided that
candidate is a truthy (non-empty) dict, the empty dict failing with the
no-translation error instead; and an empty candidate list fails with the
no-candidates error. -/
theorem add_word_candidate_resolution {ρ : Type} (pyHash : String → Int)
    (sim : String → String → ℚ) (env : AddEnv ρ) (word : String)
    (payload : TranslatePayload) (hf : env.lookup = none)
    (htr : env.translates = .ok payload) :
    (∀ h, h ≠ "" →
      select_best_translation sim (payloadCandidates payload) (some h)
        defaultThreshold = none →
      add_word_with_hint pyHash sim env word (some h)
        = writeStep env (syntheticCandidate pyHash h) false ∧
      candText (syntheticCandidate pyHash h) = h ∧
      (syntheticCandidate pyHash h).id = some (some (syntheticId pyHash h))) ∧
    (∀ hint, hintTruthy hint = false →
      (∀ c cs, payloadCandidates payload = c :: cs →
        (c.isTruthy = true →
          add_word_with_hint pyHash sim env word hint = writeStep env c true) ∧
        (c.isTruthy = false →
          add_word_with_hint pyHash sim env word hint
            = (.error (.leo .noTranslation), [.lookupCall, .translatesCall]))) ∧
      (payloadCandidates payload = [] →
        add_word_with_hint pyHash sim env word hint
          = (.error (.leo .noCandidates), [.lookupCall, .translatesCall]))) := by
  constructor
  · intro h hne hsel
    rw [add_notfound pyHash sim env word (some h) hf]
    exact ⟨afterLookup_hint_synth pyHash sim env payload h htr hne hsel,
      syntheticCandidate_text pyHash hne, rfl⟩
  · intro hint hh
    constructor
    · intro c cs hcs
      rw [add_notfound pyHash sim env word hint hf,
        afterLookup_nohint_cons pyHash sim env payload c cs hint htr hh hcs]
      constructor
      · intro ht
        rw [if_neg (by simp [ht])]
      · intro ht
        rw [if_pos ht]
    · intro hcs
      rw [add_notfound pyHash sim env word hint hf]
      exact afterLookup_nohint_nil pyHash sim env payload hint htr hh hcs

/-- Witness fixture: word absent and an empty candidates payload. -/
def envEmpty : AddEnv Unit :=
  ⟨none, .ok ⟨none, none⟩, fun _ => .ok ()⟩

theorem add_word_candidate_resolution_witness :
    envA.lookup = none ∧
    (add_word_with_hint hashW simEq envA "word" (some "новое")
        = writeStep envA (syntheticCandidate hashW "новое") false ∧
      candText (syntheticCandidate hashW "новое") = "новое" ∧
      (syntheticCandidate hashW "новое").id
        = some (some (syntheticId hashW "новое"))) ∧
    add_word_with_hint hashW simEq envA "word" none = writeStep envA cW true ∧
    add_word_with_hint hashW simEq envEmpty "word" none
      = (.error (.leo .noCandidates), [.lookupCall, .translatesCall]) :=
  ⟨rfl,
   (add_word_candidate_resolution hashW simEq envA "word"
       ⟨some (some [cW]), none⟩ rfl rfl).1 "новое" (by decide) (by decide),
   (((add_word_candidate_resolution hashW simEq envA "word"
       ⟨some (some [cW]), none⟩ rfl rfl).2 none rfl).1 cW [] rfl).1 (by decide),
   ((add_word_candidate_resolution hashW simEq envEmpty "word"
       ⟨none, none⟩ rfl rfl).2 none rfl).2 rfl⟩

theorem add_word_ok_inversion {ρ : Type} {pyHash : String → Int}
    {sim : String → String → ℚ} {env : AddEnv ρ} {word : String}
    {hint : Option String} {res : AddWordResult ρ} {events : List AEvent}
    (hok : add_word_with_hint pyHash sim env word hint = (.ok res, events)) :
    ∃ payload m auto, env.translates = .ok payload ∧
      resolveCandidate pyHash sim (payloadCandidates payload) hint = .ok (m, auto) ∧
      m.isTruthy = true ∧
      res.translation_used = m ∧ res.auto_selected = auto ∧
      env.write m = .ok res.response ∧
      events = [.lookupCall, .translatesCall, .writeCall] := by
  unfold add_word_with_hint at hok
  rcases hd : dupCheck word hint env.lookup with _ | e
  · rw [hd] at hok
    simp only [] at hok
    unfold afterLookup at hok
    rcases htr : env.translates with e | payload
    · rw [htr] at hok
      exact absurd (congrArg Prod.fst hok) (by simp)
    · rw [htr] at hok
      simp only [] at hok
      rcases hr : resolveCandidate pyHash sim (payloadCandidates payload) hint
        with e | ⟨m, auto⟩
      · rw [hr] at hok
        exact absurd (congrArg Prod.fst hok) (by simp)
      · rw [hr] at hok
        simp only [] at hok
        by_cases ht : m.isTruthy = false
        · rw [if_pos ht] at hok
          exact absurd (congrArg Prod.fst hok) (by simp)
        · rw [if_neg ht] at hok
          obtain ⟨h1, h2, h3, h4⟩ := writeStep_ok hok
          exact ⟨payload, m, auto, rfl, hr,
            Bool.not_eq_false m.isTruthy ▸ ht, h1, h2, h3, h4⟩
  · rw [hd] at hok
    exact absurd (congrArg Prod.fst hok) (by simp)

/-- C7: for every successful add_word_with_hint invocation, the outcome's
auto_selected flag is true exactly when no truthy hint was supplied (None
or the empty string — callers normalize the empty string to None) and the
candidates call returned a non-empty list; every successful outcome
produced with a truthy hint, matched or synthetic, has auto_selected
false. -/
theorem auto_selected_iff {ρ : Type} (pyHash : String → Int)
    (sim : String → String → ℚ) (env : AddEnv ρ) (word : String)
    (hint : Option String) (res : AddWordResult ρ) (events : List AEvent)
    (hok : add_word_with_hint pyHash sim env word hint = (.ok res, events)) :
    res.auto_selected = true ↔
      (hintTruthy hint = false ∧
        ∃ payload, env.translates = .ok payload ∧
          payloadCandidates payload ≠ []) := by
  obtain ⟨payload, m, auto, htr, hr, ht, hused, hauto, hw, hev⟩ :=
    add_word_ok_inversion hok
  by_cases hh : hintTruthy hint = false
  · rw [resolveCandidate_nohint pyHash sim _ hint hh] at hr
    rcases hcs : payloadCandidates payload with _ | ⟨c, cs⟩
    · rw [hcs] at hr
      exact absurd hr (by simp)
    · rw [hcs] at hr
      obtain ⟨hm, hau⟩ := Prod.mk.injEq .. ▸ Except.ok.inj hr
      constructor
      · intro _
        exact ⟨hh, payload, htr, by rw [hcs]; simp⟩
      · intro _
        rw [hauto, ← hau]
  · rcases hint with _ | h
    · exact absurd rfl hh
    · have hne : h ≠ "" := by
        intro he
        exact hh (by simp [hintTruthy, he])
      rw [resolveCandidate_hint pyHash sim _ h hne] at hr
      have hauto_false : auto = false := by
        rcases hsel : select_best_translation sim (payloadCandidates payload)
          (some h) defaultThreshold with _ | m2
        · rw [hsel] at hr
          exact (Prod.mk.injEq .. ▸ Except.ok.inj hr).2.symm
        · rw [hsel] at hr
          exact (Prod.mk.injEq .. ▸ Except.ok.inj hr).2.symm
      constructor
      · intro hx
        rw [hauto, hauto_false] at hx
        exact absurd hx (by simp)
      · intro ⟨h1, _⟩
        exact absurd h1 hh

theorem auto_selected_iff_witness :
    add_word_with_hint hashW simEq envA "word" none
      = (.ok ⟨(), cW, true⟩, [.lookupCall, .translatesCall, .writeCall]) ∧
    ((⟨(), cW, true⟩ : AddWordResult Unit).auto_selected = true ↔
      (hintTruthy none = false ∧
        ∃ payload, envA.translates = .ok payload ∧
          payloadCandidates payload ≠ [])) :=
  ⟨by decide,
   auto_selected_iff hashW simEq envA "word" none ⟨(), cW, true⟩
     [.lookupCall, .translatesCall, .writeCall] (by decide)⟩

/-- Witness fixture: a candidate with an id but no display text. -/
def c8a : Candidate :=
  ⟨some (some 7), none, none, none, none, false⟩

/-- Witness fixture: a candidate with a present-but-null id. -/
def c8b : Candidate :=
  ⟨some none, some (some "слово"), none, none, none, false⟩

/-- Witness fixture: word absent, sole candidate c8a, write succeeds. -/
def env8a : AddEnv Unit :=
  ⟨none, .ok ⟨some (some [c8a]), none⟩, fun _ => .ok ()⟩

/-- Witness fixture: word absent, sole candidate c8b, write succeeds. -/
def env8b : AddEnv Unit :=
  ⟨none, .ok ⟨some (some [c8b]), none⟩, fun _ => .ok ()⟩

/-- C8 (counterexample): the write is reached with invariant-violating
candidates: the auto-selected first candidate can carry an empty display
text (c8a), and a matcher-selected candidate can carry a null id (c8b)
— both runs succeed and pass the offending candidate to the write. -/
theorem write_candidate_unchecked :
    (add_word_with_hint hashW simEq env8a "w" none
        = (.ok ⟨(), c8a, true⟩, [.lookupCall, .translatesCall, .writeCall]) ∧
      candText c8a = "") ∧
    (add_word_with_hint hashW simEq env8b "w" (some "слово")
        = (.ok ⟨(), c8b, false⟩, [.lookupCall, .translatesCall, .writeCall]) ∧
      c8b.id.join = none) := by decide

/-- C8 (amended): on the two truthy-hint paths the candidate passed to
the write always carries a non-empty display text, and on the synthetic
path it moreover carries a non-null id; the matcher-selected candidate's
id and the entire auto-selected first candidate are passed to the write
unchecked, so there they are only as good as the remote data (see the
counterexample). -/
theorem write_candidate_hint_paths {ρ : Type} (pyHash : String → Int)
    (sim : String → String → ℚ) (env : AddEnv ρ) (word h : String)
    (res : AddWordResult ρ) (events : List AEvent)
    (hsim : ∀ a b, 0 ≤ sim a b) (hne : h ≠ "")
    (hok : add_word_with_hint pyHash sim env word (some h) = (.ok res, events)) :
    candText res.translation_used ≠ "" ∧
    (∀ payload, env.translates = .ok payload →
      select_best_translation sim (payloadCandidates payload) (some h)
        defaultThreshold = none →
      res.translation_used.id.join.isSome = true) := by
  obtain ⟨payload, m, auto, htr, hr, ht, hused, hauto, hw, hev⟩ :=
    add_word_ok_inversion hok
  rw [resolveCandidate_hint pyHash sim _ h hne] at hr
  rcases hsel : select_best_translation sim (payloadCandidates payload)
    (some h) defaultThreshold with _ | m2
  · rw [hsel] at hr
    have hm : m = syntheticCandidate pyHash h :=
      ((Prod.mk.injEq .. ▸ Except.ok.inj hr).1).symm
    constructor
    · rw [hused, hm, syntheticCandidate_text pyHash hne]
      exact hne
    · intro payload2 htr2 hsel2
      rw [hused, hm]
      rfl
  · rw [hsel] at hr
    have hm : m = m2 := ((Prod.mk.injEq .. ▸ Except.ok.inj hr).1).symm
    constructor
    · rw [hused, hm]
      exact (select_best_some hsim hsel).2.1
    · intro payload2 htr2 hsel2
      rcases Except.ok.inj (htr.symm.trans htr2) with rfl
      rw [hsel] at hsel2
      exact absurd hsel2 (by simp)

theorem write_candidate_hint_paths_witness :
    (∀ a b, 0 ≤ simEq a b) ∧ ("новое" ≠ "") ∧
    add_word_with_hint hashW simEq envA "word" (some "новое")
      = (.ok ⟨(), syntheticCandidate hashW "новое", false⟩,
         [.lookupCall, .translatesCall, .writeCall]) ∧
    (candText
        ((⟨(), syntheticCandidate hashW "новое", false⟩ :
          AddWordResult Unit).translation_used) ≠ "" ∧
      (∀ payload, envA.translates = .ok payload →
        select_best_translation simEq (payloadCandidates payload)
          (some "новое") defaultThreshold = none →
        ((⟨(), syntheticCandidate hashW "новое", false⟩ :
          AddWordResult Unit).translation_used).id.join.isSome = true)) :=
  ⟨simEq_nonneg, by decide, by decide,
   write_candidate_hint_paths hashW simEq envA "word" "новое"
     ⟨(), syntheticCandidate hashW "новое", false⟩
     [.lookupCall, .translatesCall, .writeCall]
     simEq_nonneg (by decide) (by decide)⟩

end Lingualeo
